import Mathlib

/-!
Shallow embedding of the rdb storage-engine core (src/constants.rs,
src/errors.rs, src/enc.rs, src/db.rs, src/mmap_array.rs) and proofs about
the claims on the varint codec, the Meta record, database open, the page
store bounds check and the jump table bounds check.

Machine integers are modelled as Nat with explicit wrap-around (mod 2 to a
power) exactly where the Rust code can overflow or truncate.  Fallible
operations return Except; a Rust panic or assertion failure is modelled as
the none case of an Option result.
-/

set_option maxHeartbeats 1000000

namespace Rdb

/-! ## Constants (src/constants.rs) -/

/-- Operating system page size, src/constants.rs. -/
def OS_PAGE_SIZE : Nat := 4096

/-- A stamp that identifies a file as a database file, src/constants.rs. -/
def MAGIC_KEY : Nat := 0xBADC0DE

/-- Size constant used for the jump table header, src/constants.rs. -/
def MAGIC_KEY_SIZE : Nat := 32

/-- The data file format version, src/constants.rs. -/
def VERSION : Nat := 1

/-- Size constant used for the jump table header, src/constants.rs. -/
def VERSION_SIZE : Nat := 32

/-! ## Errors (src/errors.rs).  The Io variant wraps an io::Error; its
payload carries no information the claims depend on, so it is a bare
constructor here. -/

inductive Error where
  | DatabaseNotFound
  | DatabaseInvalid
  | DatabaseVersionMismatch
  | ChecksumError
  | Io
deriving DecidableEq, Repr

/-! ## Little-endian byte strings

`leBytes n v` is the first `n` bytes of the little-endian representation of
`v`; it is the byte sequence produced by the Rust pattern
`for .. { write (v as u8); v >>= 8 }` and by `to_ne_bytes` on a
little-endian target. -/

def leBytes : Nat → Nat → List Nat
  | 0, _ => []
  | n + 1, v => v % 256 :: leBytes n (v / 256)

/-- Value of a little-endian byte string, low byte first. -/
def leWord (bs : List Nat) : Nat := bs.foldr (fun b acc => b + 256 * acc) 0

/-! ## DefaultHasher (std::collections::hash_map::DefaultHasher)

The generic `fn hash<T: Hash>` in src/db.rs feeds the bytes of `T` through
`DefaultHasher`, which is SipHash-1-3 with both keys zero.  The 64-bit
state arithmetic is modelled on Nat with explicit reduction mod 2^64. -/

structure SipState where
  v0 : Nat
  v1 : Nat
  v2 : Nat
  v3 : Nat

/-- Wrapping 64-bit addition. -/
def wrap64 (x : Nat) : Nat := x % 2 ^ 64

/-- 64-bit rotate left. -/
def rotl64 (x n : Nat) : Nat := ((x <<< n) % 2 ^ 64) ||| (x >>> (64 - n))

/-- One SipHash round on the 4-word state. -/
def sipRound (s : SipState) : SipState :=
  let v0 := wrap64 (s.v0 + s.v1)
  let v1 := rotl64 s.v1 13
  let v1 := v1 ^^^ v0
  let v0 := rotl64 v0 32
  let v2 := wrap64 (s.v2 + s.v3)
  let v3 := rotl64 s.v3 16
  let v3 := v3 ^^^ v2
  let v0 := wrap64 (v0 + v3)
  let v3 := rotl64 v3 21
  let v3 := v3 ^^^ v0
  let v2 := wrap64 (v2 + v1)
  let v1 := rotl64 v1 17
  let v1 := v1 ^^^ v2
  let v2 := rotl64 v2 32
  ⟨v0, v1, v2, v3⟩

/-- Absorb one 8-byte message word (SipHash-1-3 uses one compression
round per word). -/
def sipCompress (s : SipState) (m : Nat) : SipState :=
  let s : SipState := { s with v3 := s.v3 ^^^ m }
  let s := sipRound s
  { s with v0 := s.v0 ^^^ m }

/-- Main SipHash-1-3 loop: absorb full 8-byte words, then the final block
carrying the remaining bytes and the message length in the top byte,
then three finalization rounds. -/
def sipHashLoop (s : SipState) (len : Nat) : List Nat → Nat
  | b0 :: b1 :: b2 :: b3 :: b4 :: b5 :: b6 :: b7 :: rest =>
      sipHashLoop (sipCompress s (leWord [b0, b1, b2, b3, b4, b5, b6, b7])) len rest
  | rest =>
      let b := ((len % 256) <<< 56) ||| leWord rest
      let s := sipCompress s b
      let s : SipState := { s with v2 := s.v2 ^^^ 0xff }
      let s := sipRound (sipRound (sipRound s))
      s.v0 ^^^ s.v1 ^^^ s.v2 ^^^ s.v3

/-- SipHash-1-3 with both keys zero, the algorithm of
`DefaultHasher::new()`. -/
def sipHash13 (msg : List Nat) : Nat :=
  sipHashLoop
    ⟨0x736f6d6570736575, 0x646f72616e646f6d, 0x6c7967656e657261, 0x7465646279746573⟩
    msg.length msg

/-! ## Meta record (src/db.rs) -/

/-- The metadata record at the beginning of the database file,
src/db.rs.  Field order matches the Rust struct declaration, which is
also the order `derive(Hash)` feeds the fields to the hasher. -/
structure Meta where
  magic : Nat
  version : Nat
  flags : Nat
  page_size : Nat
  checksum : Nat
  transaction_id : Nat
  little_endian : Bool
  root : Nat
  freelist : Nat
  pgid : Nat
deriving DecidableEq, Repr

/-- Meta::default in src/db.rs.  The model fixes a little-endian target,
matching the x86-64 build the repository assumes. -/
def Meta.default : Meta :=
  { magic := MAGIC_KEY
    version := VERSION
    flags := 0
    page_size := OS_PAGE_SIZE
    checksum := 0
    little_endian := true
    root := 0
    freelist := 0
    transaction_id := 0
    pgid := 0 }

/-- Byte stream that `derive(Hash)` feeds to the hasher for a Meta value:
each integer field contributes its native-endian bytes in declaration
order, the bool contributes one byte.  Note the checksum field itself is
part of the stream. -/
def Meta.hashBytes (m : Meta) : List Nat :=
  leBytes 4 m.magic ++ leBytes 4 m.version ++ leBytes 4 m.flags ++
    leBytes 4 m.page_size ++ leBytes 8 m.checksum ++ leBytes 8 m.transaction_id ++
    [if m.little_endian then 1 else 0] ++ leBytes 4 m.root ++ leBytes 4 m.freelist ++
    leBytes 4 m.pgid

/-- The generic `fn hash<T: Hash>(t: &T) -> u64` of src/db.rs instantiated
at Meta: DefaultHasher over the derived byte stream of the whole record. -/
def hash (m : Meta) : Nat := sipHash13 (Meta.hashBytes m)

/-- Modelled from the spec: the spec says the checksum is a hash over all
other fields of the Meta record, the hash input excluding the checksum
field itself.  This definition follows those words (same hasher, same
field order, checksum bytes omitted) and exists only to be compared with
the hash the code actually uses. -/
def Meta.hashBytesExclChecksum (m : Meta) : List Nat :=
  leBytes 4 m.magic ++ leBytes 4 m.version ++ leBytes 4 m.flags ++
    leBytes 4 m.page_size ++ leBytes 8 m.transaction_id ++
    [if m.little_endian then 1 else 0] ++ leBytes 4 m.root ++ leBytes 4 m.freelist ++
    leBytes 4 m.pgid

/-- Modelled from the spec: the checksum value the spec prescribes, a hash
recomputed over all fields other than the checksum. -/
def specHashExclChecksum (m : Meta) : Nat := sipHash13 (Meta.hashBytesExclChecksum m)

/-- Meta::validate in src/db.rs. -/
def Meta.validate (m : Meta) : Except Error Unit :=
  if m.magic ≠ MAGIC_KEY then .error .DatabaseInvalid
  else if m.version ≠ VERSION then .error .DatabaseVersionMismatch
  else if m.checksum ≠ 0 ∧ m.checksum ≠ hash m then .error .ChecksumError
  else .ok ()

/-! ## Database open (src/db.rs) -/

/-- Settings in src/db.rs. -/
structure Settings where
  auto_create : Bool
  read_only : Bool
  initial_mmap_size : Nat
deriving DecidableEq, Repr

/-- Default::default for Settings in src/db.rs. -/
def Settings.default : Settings :=
  { auto_create := true, read_only := false, initial_mmap_size := 0 }

/-- State of the database file on disk: the two Meta copies at page 0 and
page 1 and the file length in bytes. -/
structure DbFile where
  meta0 : Meta
  meta1 : Meta
  len : Nat
deriving DecidableEq, Repr

/-- Db::create in src/db.rs: sets the file length to four pages and writes
Meta::default into both meta slots.  The Rust function returns Ok(())
after mutating the mapped file; the model returns the resulting file
state.  OS-level failures (open, set_len, mmap) are outside the model. -/
def Db.create (_settings : Settings) : Except Error DbFile :=
  .ok { meta0 := Meta.default, meta1 := Meta.default, len := OS_PAGE_SIZE * 4 }

/-- Db::init in src/db.rs: opens and maps the existing file, takes the
file lock, reads the file metadata and returns Ok(()).  The function
never reads either Meta copy and never calls Meta::validate; the empty
`if meta_data.len() == 0 {}` branch has no effect.  OS-level failures are
outside the model. -/
def Db.init (_file : DbFile) (_settings : Settings) : Except Error Unit :=
  .ok ()

/-- Db::open in src/db.rs (`open` is a reserved word in Lean): dispatches
on whether the file exists and on settings.auto_create. -/
def Db.openDb (fileExists : Bool) (file : DbFile) (settings : Settings) :
    Except Error Unit :=
  match fileExists, settings.auto_create with
  | false, false => .error .DatabaseNotFound
  | false, true => (Db.create settings).map fun _ => ()
  | true, _ => Db.init file settings

/-! ## Page store (src/db.rs, PageArray) -/

/-- PageArray::check_bounds in src/db.rs:
`assert!(self.data.len() >= OS_PAGE_SIZE * id as usize)`.
Returns whether the assertion passes; `false` is the panic. -/
def PageArray.check_bounds (len id : Nat) : Bool :=
  decide (OS_PAGE_SIZE * id ≤ len)

/-- PageArray::page_ptr in src/db.rs: id 0 returns the base pointer with
no check; otherwise check_bounds runs and the pointer at byte offset
OS_PAGE_SIZE * id is returned.  The model returns the byte offset of the
returned pointer, or none when the assertion panics. -/
def PageArray.page_ptr (len id : Nat) : Option Nat :=
  if id = 0 then some 0
  else if PageArray.check_bounds len id then some (OS_PAGE_SIZE * id)
  else none

/-! ## Jump table (src/mmap_array.rs) -/

/-- HEADER_SIZE in src/mmap_array.rs. -/
def HEADER_SIZE : Nat := MAGIC_KEY_SIZE + VERSION_SIZE

/-- JumpTable::set in src/mmap_array.rs: writes only when
`self.length < index`, otherwise panics with "Index out of bound".
The model returns the byte offset written, or none for the panic. -/
def JumpTable.set (length index : Nat) : Option Nat :=
  if length < index then some (64 * index + HEADER_SIZE) else none

/-- JumpTable::get in src/mmap_array.rs: reads only when
`self.length < index`, otherwise panics with "Index out of bound".
The model returns the byte offset read, or none for the panic. -/
def JumpTable.get (length index : Nat) : Option Nat :=
  if length < index then some (64 * index + HEADER_SIZE) else none

/-! ## Varint codec (src/enc.rs) -/

def VARINT_CUT1 : Nat := 201

def VARINT_CUT2 : Nat := 249

/-- Bit width of a u64 value: `64 - v.leading_zeros()` in src/enc.rs. -/
def u64Bits (v : Nat) : Nat := if v = 0 then 0 else Nat.log2 v + 1

/-- encode_varint_u64 in src/enc.rs.  The result is the list of bytes
written to the buffer, in offset order, paired with the u64 the function
returns.  Casts `as u8` are modelled as reduction mod 256 where the
operand is not already below 256 by construction (`v & 255` is). -/
def encode_varint_u64 (v : Nat) : List Nat × Nat :=
  if v < VARINT_CUT1 then
    ([v % 256], 1)
  else if v < VARINT_CUT1 + 255 + 256 * (VARINT_CUT2 - VARINT_CUT1 - 1) then
    let w := v - 200
    ([((w >>> 8) + VARINT_CUT1) % 256, w &&& 255], 2)
  else
    let bits := u64Bits v
    let bytes := (bits + 7) / 8
    let b0 := VARINT_CUT2 + (bytes - 2)
    (b0 % 256 :: leBytes bytes v, bytes)

/-- Memory contents described by a byte list laid out from offset 0. -/
def memOf (l : List Nat) : Nat → Nat := fun i => l.getD i 0

/-- decode_varint_u64 in src/enc.rs, reading bytes from `mem`.  The Rust
loop starts from `v = byte 1` and ors in `byte i <<< 8*(i-1)` for
i = 2..bytes; the fold below performs the same or-accumulation including
the unrolled first iteration (`0 ||| byte 1 <<< 0`). -/
def decode_varint_u64 (mem : Nat → Nat) : Nat :=
  let b0 := mem 0
  if b0 < VARINT_CUT1 then
    b0
  else if b0 < VARINT_CUT2 then
    VARINT_CUT1 - 1 + ((b0 - VARINT_CUT1) <<< 8) + mem 1
  else
    let bytes := b0 - VARINT_CUT2 + 2
    (List.range bytes).foldl (fun v i => v ||| mem (i + 1) <<< (8 * i)) 0

/-! ## Helper lemmas -/

theorem lor_shiftLeft_eq_add {a k : Nat} (b : Nat) (h : a < 2 ^ k) :
    a ||| b <<< k = a + 2 ^ k * b := by
  apply Nat.eq_of_testBit_eq
  intro j
  rw [Nat.testBit_or, Nat.testBit_shiftLeft, Nat.add_comm a, Nat.testBit_mul_pow_two_add b h j]
  by_cases hj : j < k
  · have hge : ¬ j ≥ k := by omega
    simp [hj, hge]
  · have ha : Nat.testBit a j = false :=
      Nat.testBit_lt_two_pow
        (Nat.lt_of_lt_of_le h (Nat.pow_le_pow_right (by norm_num) (by omega)))
    have hge : j ≥ k := by omega
    simp [hj, hge, ha]

theorem land_255_eq_mod (w : Nat) : w &&& 255 = w % 256 := by
  have h255 : (255 : Nat) = 2 ^ 8 - 1 := by norm_num
  have h256 : (256 : Nat) = 2 ^ 8 := by norm_num
  rw [h255, h256]
  apply Nat.eq_of_testBit_eq
  intro j
  rw [Nat.testBit_and, Nat.testBit_mod_two_pow, Nat.testBit_two_pow_sub_one]
  exact Bool.and_comm _ _

theorem leBytes_length : ∀ n v, (leBytes n v).length = n
  | 0, _ => rfl
  | n + 1, v => by simp [leBytes, leBytes_length n]

theorem leBytes_getD : ∀ n v i, i < n → (leBytes n v).getD i 0 = v / 256 ^ i % 256
  | _ + 1, v, 0, _ => by simp [leBytes]
  | n + 1, v, i + 1, h => by
    simp only [leBytes, List.getD_cons_succ]
    rw [leBytes_getD n (v / 256) i (by omega), Nat.div_div_eq_div_mul,
      Nat.mul_comm, ← pow_succ]

theorem foldl_lor_digits (mem : Nat → Nat) (v : Nat) :
    ∀ n, (∀ i, i < n → mem (i + 1) = v / 256 ^ i % 256) →
      (List.range n).foldl (fun a i => a ||| mem (i + 1) <<< (8 * i)) 0 = v % 256 ^ n := by
  intro n
  induction n with
  | zero => intro _; simp [Nat.mod_one]
  | succ n ih =>
    intro h
    rw [List.range_succ, List.foldl_append, List.foldl_cons, List.foldl_nil,
      ih (fun i hi => h i (by omega)), h n (by omega)]
    have hpow : (256 : Nat) ^ n = 2 ^ (8 * n) := by
      rw [Nat.pow_mul]
    have hlt : v % 256 ^ n < 2 ^ (8 * n) := by
      rw [← hpow]; exact Nat.mod_lt _ (Nat.pow_pos (by norm_num))
    rw [lor_shiftLeft_eq_add _ hlt, Nat.mod_pow_succ, ← hpow]

theorem log2_eq_of {v k : Nat} (h0 : v ≠ 0) (h1 : 2 ^ k ≤ v) (h2 : v < 2 ^ (k + 1)) :
    Nat.log2 v = k := by
  have a := (Nat.le_log2 h0).mpr h1
  have b := (Nat.log2_lt h0).mpr h2
  omega

/-- Characterization of the 1-byte encoder branch. -/
theorem encode_varint_small {v : Nat} (h : v < 201) :
    encode_varint_u64 v = ([v], 1) := by
  have h1 : v < VARINT_CUT1 := by simp only [VARINT_CUT1]; omega
  simp only [encode_varint_u64, if_pos h1]
  rw [Nat.mod_eq_of_lt (by omega)]

/-- Characterization of the 2-byte encoder branch. -/
theorem encode_varint_two {v : Nat} (hlo : 201 ≤ v) (hhi : v ≤ 12487) :
    encode_varint_u64 v = ([(v - 200) / 256 + 201, (v - 200) % 256], 2) := by
  have h1 : ¬ v < VARINT_CUT1 := by simp only [VARINT_CUT1]; omega
  have h2 : v < VARINT_CUT1 + 255 + 256 * (VARINT_CUT2 - VARINT_CUT1 - 1) := by
    simp only [VARINT_CUT1, VARINT_CUT2]; omega
  simp only [encode_varint_u64, if_neg h1, if_pos h2]
  rw [Nat.shiftRight_eq_div_pow, land_255_eq_mod]
  have hq : (v - 200) / 2 ^ 8 + VARINT_CUT1 < 256 := by
    simp only [VARINT_CUT1]
    have : (v - 200) / 2 ^ 8 = (v - 200) / 256 := by norm_num
    omega
  rw [Nat.mod_eq_of_lt hq]
  simp only [VARINT_CUT1]
  norm_num

/-- Characterization of the multi-byte encoder branch: one selector byte
followed by the little-endian payload, and the payload width is what the
function returns. -/
theorem encode_varint_big {v : Nat} (hv : 12488 ≤ v) (h64 : v < 2 ^ 64) :
    encode_varint_u64 v =
      ((247 + (u64Bits v + 7) / 8) :: leBytes ((u64Bits v + 7) / 8) v,
        (u64Bits v + 7) / 8) := by
  have h0 : v ≠ 0 := by omega
  have hl13 : 13 ≤ Nat.log2 v :=
    (Nat.le_log2 h0).mpr (le_trans (by norm_num) hv)
  have hl64 : Nat.log2 v < 64 := (Nat.log2_lt h0).mpr h64
  have hub : u64Bits v = Nat.log2 v + 1 := by simp [u64Bits, h0]
  have h1 : ¬ v < VARINT_CUT1 := by simp only [VARINT_CUT1]; omega
  have h2 : ¬ v < VARINT_CUT1 + 255 + 256 * (VARINT_CUT2 - VARINT_CUT1 - 1) := by
    simp only [VARINT_CUT1, VARINT_CUT2]; omega
  simp only [encode_varint_u64, if_neg h1, if_neg h2]
  have hb0 : (VARINT_CUT2 + ((u64Bits v + 7) / 8 - 2)) % 256 = 247 + (u64Bits v + 7) / 8 := by
    rw [hub]; simp only [VARINT_CUT2]; omega
  rw [hb0]

/-- Decoding a multi-byte encoding recovers the value. -/
theorem decode_varint_big {bytes v : Nat} (hb2 : 2 ≤ bytes) (hb8 : bytes ≤ 8)
    (hv : v < 2 ^ (8 * bytes)) :
    decode_varint_u64 (memOf ((247 + bytes) :: leBytes bytes v)) = v := by
  have hmem0 : memOf ((247 + bytes) :: leBytes bytes v) 0 = 247 + bytes := rfl
  have h1 : ¬ (247 + bytes < VARINT_CUT1) := by simp only [VARINT_CUT1]; omega
  have h2 : ¬ (247 + bytes < VARINT_CUT2) := by simp only [VARINT_CUT2]; omega
  simp only [decode_varint_u64, hmem0, if_neg h1, if_neg h2]
  have hbytes : 247 + bytes - VARINT_CUT2 + 2 = bytes := by simp only [VARINT_CUT2]; omega
  rw [hbytes]
  rw [foldl_lor_digits _ v bytes ?_]
  · rw [Nat.mod_eq_of_lt]
    rwa [show (256 : Nat) ^ bytes = 2 ^ (8 * bytes) by rw [Nat.pow_mul]]
  · intro i hi
    simp only [memOf, List.getD_cons_succ]
    exact leBytes_getD bytes v i hi

/-! ## Claim theorems: varint codec -/

/-- C5: for every u64 value v with v ≤ 2^56 - 1, decoding the varint
encoding of v recovers exactly v: decode_varint_u64 applied to the bytes
written by encode_varint_u64 v equals v. -/
theorem varint_decode_encode (v : Nat) (h : v < 2 ^ 56) :
    decode_varint_u64 (memOf (encode_varint_u64 v).1) = v := by
  by_cases h1 : v < 201
  · rw [encode_varint_small h1]
    have hm0 : memOf [v] 0 = v := rfl
    simp only [decode_varint_u64, hm0]
    rw [if_pos (by simp only [VARINT_CUT1]; omega)]
  · by_cases h2 : v ≤ 12487
    · rw [encode_varint_two (by omega) h2]
      have hm0 : memOf [(v - 200) / 256 + 201, (v - 200) % 256] 0
          = (v - 200) / 256 + 201 := rfl
      have hm1 : memOf [(v - 200) / 256 + 201, (v - 200) % 256] 1
          = (v - 200) % 256 := rfl
      simp only [decode_varint_u64, hm0, hm1]
      rw [if_neg (by simp only [VARINT_CUT1]; omega),
        if_pos (by simp only [VARINT_CUT1, VARINT_CUT2]; omega)]
      rw [Nat.shiftLeft_eq]
      simp only [VARINT_CUT1]
      have h8 : (2 : Nat) ^ 8 = 256 := by norm_num
      rw [h8]
      omega
    · have hv : 12488 ≤ v := by omega
      have h0 : v ≠ 0 := by omega
      have hl56 : Nat.log2 v < 56 := (Nat.log2_lt h0).mpr h
      have hl13 : 13 ≤ Nat.log2 v :=
        (Nat.le_log2 h0).mpr (le_trans (by norm_num) hv)
      have hub : u64Bits v = Nat.log2 v + 1 := by simp [u64Bits, h0]
      rw [encode_varint_big hv (lt_trans h (by norm_num)), hub]
      apply decode_varint_big (by omega) (by omega)
      calc v < 2 ^ (Nat.log2 v + 1) := (Nat.log2_lt h0).mp (Nat.lt_succ_self _)
        _ ≤ 2 ^ (8 * ((Nat.log2 v + 1 + 7) / 8)) :=
          Nat.pow_le_pow_right (by norm_num) (by omega)

/-- C5 witness: the round trip at the concrete input 70000. -/
theorem varint_decode_encode_witness :
    70000 < 2 ^ 56 ∧ decode_varint_u64 (memOf (encode_varint_u64 70000).1) = 70000 :=
  ⟨by norm_num, varint_decode_encode 70000 (by norm_num)⟩

/-- C6 counterexample: 12743 lies in the range the claim gives the 2-byte
format, but the encoder emits a 3-byte multi-byte encoding for it, not the
claimed pair of bytes. -/
theorem varint_table_counterexample :
    201 ≤ 12743 ∧ 12743 ≤ 12743 ∧
      (encode_varint_u64 12743).1 ≠ [(12743 - 200) / 256 + 201, (12743 - 200) % 256] := by
  refine ⟨by norm_num, le_refl _, ?_⟩
  have hl : Nat.log2 12743 = 13 := log2_eq_of (by norm_num) (by norm_num) (by norm_num)
  have hub : u64Bits 12743 = 14 := by rw [u64Bits, if_neg (by norm_num), hl]
  rw [encode_varint_big (by norm_num) (by norm_num), hub]
  simp [leBytes]

/-- C6 amended: the encoder range table the code implements on the ranges
the claim covers: the 2-byte branch with byte0 = (v-200)/256 + 201 and
byte1 = (v-200) mod 256 holds for 201 ≤ v ≤ 12487 only; for
12488 ≤ v ≤ 65535 the encoder emits selector 249 followed by v itself as
a little-endian u16; for 65536 ≤ v ≤ 78278 it emits selector 250 followed
by v itself as a little-endian u24. -/
theorem varint_encoder_table_amended (v : Nat) :
    (201 ≤ v → v ≤ 12487 →
      (encode_varint_u64 v).1 = [(v - 200) / 256 + 201, (v - 200) % 256]) ∧
    (12488 ≤ v → v ≤ 65535 →
      (encode_varint_u64 v).1 = [249, v % 256, v / 256 % 256]) ∧
    (65536 ≤ v → v ≤ 78278 →
      (encode_varint_u64 v).1 = [250, v % 256, v / 256 % 256, v / 65536 % 256]) := by
  refine ⟨fun h1 h2 => ?_, fun h1 h2 => ?_, fun h1 h2 => ?_⟩
  · rw [encode_varint_two h1 h2]
  · have h0 : v ≠ 0 := by omega
    have ha : 13 ≤ Nat.log2 v :=
      (Nat.le_log2 h0).mpr (le_trans (by norm_num) h1)
    have hb : Nat.log2 v < 16 :=
      (Nat.log2_lt h0).mpr (lt_of_le_of_lt h2 (by norm_num))
    have hub : u64Bits v = Nat.log2 v + 1 := by simp [u64Bits, h0]
    rw [encode_varint_big h1 (lt_of_le_of_lt h2 (by norm_num)), hub]
    have hbytes : (Nat.log2 v + 1 + 7) / 8 = 2 := by omega
    rw [hbytes]
    simp [leBytes]
  · have h0 : v ≠ 0 := by omega
    have ha : 16 ≤ Nat.log2 v :=
      (Nat.le_log2 h0).mpr (le_trans (by norm_num) h1)
    have hb : Nat.log2 v < 17 :=
      (Nat.log2_lt h0).mpr (lt_of_le_of_lt h2 (by norm_num))
    have hub : u64Bits v = Nat.log2 v + 1 := by simp [u64Bits, h0]
    rw [encode_varint_big (by omega) (lt_of_le_of_lt h2 (by norm_num)), hub]
    have hbytes : (Nat.log2 v + 1 + 7) / 8 = 3 := by omega
    rw [hbytes]
    simp [leBytes, Nat.div_div_eq_div_mul]

/-- C6 amended witness: the 2-byte format at 300 and the 249 selector at
20000. -/
theorem varint_encoder_table_amended_witness :
    (encode_varint_u64 300).1 = [(300 - 200) / 256 + 201, (300 - 200) % 256] ∧
    (encode_varint_u64 20000).1 = [249, 20000 % 256, 20000 / 256 % 256] :=
  ⟨(varint_encoder_table_amended 300).1 (by norm_num) (by norm_num),
    (varint_encoder_table_amended 20000).2.1 (by norm_num) (by norm_num)⟩

/-- C7 counterexample: encoding v = 2^56 does not fail: the encoder
produces selector byte 255 followed by the 8 little-endian payload bytes
of v, returns width 8, and decoding even recovers v. -/
theorem varint_no_overflow_at_2pow56 :
    (encode_varint_u64 (2 ^ 56)).1 = [255, 0, 0, 0, 0, 0, 0, 0, 1] ∧
    (encode_varint_u64 (2 ^ 56)).2 = 8 ∧
    decode_varint_u64 (memOf (encode_varint_u64 (2 ^ 56)).1) = 2 ^ 56 := by
  have hl : Nat.log2 (2 ^ 56) = 56 := log2_eq_of (by norm_num) (le_refl _) (by norm_num)
  have hub : u64Bits (2 ^ 56) = 57 := by rw [u64Bits, if_neg (by norm_num), hl]
  have he := @encode_varint_big (2 ^ 56) (by norm_num) (by norm_num)
  rw [hub] at he
  norm_num at he
  have hd := @decode_varint_big 8 (2 ^ 56) (by norm_num) (le_refl _) (by norm_num)
  norm_num at hd
  norm_num
  rw [he]
  refine ⟨by decide, rfl, hd⟩

/-- C7 amended: for every v with 2^56 ≤ v < 2^64, encoding succeeds
rather than failing: the encoder emits selector byte 255 followed by the
8 little-endian payload bytes of v, returns 8, and decoding recovers v. -/
theorem varint_large_values_encode (v : Nat) (h1 : 2 ^ 56 ≤ v) (h2 : v < 2 ^ 64) :
    (encode_varint_u64 v).1 = 255 :: leBytes 8 v ∧
    (encode_varint_u64 v).2 = 8 ∧
    decode_varint_u64 (memOf (encode_varint_u64 v).1) = v := by
  have h0 : v ≠ 0 := by
    have : (0 : Nat) < 2 ^ 56 := by norm_num
    omega
  have ha : 56 ≤ Nat.log2 v := (Nat.le_log2 h0).mpr h1
  have hb : Nat.log2 v < 64 := (Nat.log2_lt h0).mpr h2
  have hub : u64Bits v = Nat.log2 v + 1 := by simp [u64Bits, h0]
  have h12488 : 12488 ≤ v := by
    have : (12488 : Nat) ≤ 2 ^ 56 := by norm_num
    omega
  have he := encode_varint_big h12488 h2
  rw [hub] at he
  have hbytes : (Nat.log2 v + 1 + 7) / 8 = 8 := by omega
  rw [hbytes] at he
  norm_num at he
  have hd := @decode_varint_big 8 v (by norm_num) (le_refl _) (by norm_num; exact h2)
  norm_num at hd
  rw [he]
  exact ⟨rfl, rfl, hd⟩

/-- C7 amended witness: the amended behavior at the concrete input 2^60. -/
theorem varint_large_values_encode_witness :
    2 ^ 56 ≤ 2 ^ 60 ∧ 2 ^ 60 < 2 ^ 64 ∧ (encode_varint_u64 (2 ^ 60)).2 = 8 :=
  ⟨by norm_num, by norm_num,
    (varint_large_values_encode (2 ^ 60) (by norm_num) (by norm_num)).2.1⟩

/-- C10: for every v ≥ 12488 (the multi-byte selector branch) the encoder
writes 1 + n bytes (selector plus n payload bytes, n = ceil(bits(v)/8))
but returns n, one less than the bytes written; for v ≤ 12487 the return
value equals the number of bytes written. -/
theorem varint_width_return (v : Nat) (h64 : v < 2 ^ 64) :
    (12488 ≤ v →
      (encode_varint_u64 v).1.length = 1 + (encode_varint_u64 v).2 ∧
      (encode_varint_u64 v).2 = (u64Bits v + 7) / 8) ∧
    (v ≤ 12487 → (encode_varint_u64 v).1.length = (encode_varint_u64 v).2) := by
  constructor
  · intro hv
    rw [encode_varint_big hv h64]
    refine ⟨?_, rfl⟩
    simp only [List.length_cons, leBytes_length]
    omega
  · intro hv
    by_cases h1 : v < 201
    · rw [encode_varint_small h1]; rfl
    · rw [encode_varint_two (by omega) hv]; rfl

/-- C10 witness: at v = 100000 the encoder writes one byte more than it
returns. -/
theorem varint_width_return_witness :
    12488 ≤ 100000 ∧
    (encode_varint_u64 100000).1.length = 1 + (encode_varint_u64 100000).2 :=
  ⟨by norm_num, ((varint_width_return 100000 (by norm_num)).1 (by norm_num)).1⟩

/-! ## Claim theorems: Meta validation -/

/-- C3: validate fails with DatabaseInvalid whenever magic differs from
the fixed stamp; fails with DatabaseVersionMismatch whenever magic
matches but version differs; and returns Ok for every Meta whose magic
and version match and whose checksum is zero. -/
theorem meta_validate_cases (m : Meta) :
    (m.magic ≠ MAGIC_KEY → m.validate = .error .DatabaseInvalid) ∧
    (m.magic = MAGIC_KEY → m.version ≠ VERSION →
      m.validate = .error .DatabaseVersionMismatch) ∧
    (m.magic = MAGIC_KEY → m.version = VERSION → m.checksum = 0 →
      m.validate = .ok ()) := by
  refine ⟨fun h => ?_, fun h1 h2 => ?_, fun h1 h2 h3 => ?_⟩
  · simp [Meta.validate, h]
  · simp [Meta.validate, h1, h2]
  · simp [Meta.validate, h1, h2, h3]

/-- C3 witness: the three validate outcomes at concrete Meta records. -/
theorem meta_validate_cases_witness :
    Meta.validate { Meta.default with magic := 0 } = .error .DatabaseInvalid ∧
    Meta.validate { Meta.default with version := 2 } = .error .DatabaseVersionMismatch ∧
    Meta.validate Meta.default = .ok () :=
  ⟨(meta_validate_cases _).1 (by decide),
    (meta_validate_cases _).2.1 (by decide) (by decide),
    (meta_validate_cases _).2.2 (by decide) (by decide) (by decide)⟩

/-- Meta record whose stored checksum is exactly the value the spec
prescribes: the hash recomputed over all fields other than the checksum. -/
def specChecksummedMeta : Meta :=
  { Meta.default with checksum := specHashExclChecksum Meta.default }

/-- C2 evaluation: the code hashes the whole record, checksum field
included.  A Meta carrying the checksum the claim calls valid (the hash
over all the other fields, which is non-zero here) is rejected by
Meta::validate with ChecksumError, because the recomputed hash feeds the
stored checksum back into the hash input. -/
theorem validate_rejects_spec_checksum :
    specChecksummedMeta.checksum ≠ 0 ∧
    specChecksummedMeta.checksum = specHashExclChecksum specChecksummedMeta ∧
    specChecksummedMeta.checksum ≠ hash specChecksummedMeta ∧
    Meta.validate specChecksummedMeta = .error .ChecksumError := by
  refine ⟨by decide, by decide, by decide, by rfl⟩

/-! ## Claim theorems: Db::open -/

/-- A Meta copy that fails validation (bad magic). -/
def invalidMeta : Meta := { Meta.default with magic := 0 }

/-- A database file whose two Meta copies are both invalid. -/
def invalidFile : DbFile :=
  { meta0 := invalidMeta, meta1 := invalidMeta, len := OS_PAGE_SIZE * 4 }

/-- C1 evaluation: opening an existing file whose two Meta copies are
both invalid succeeds with Ok.  Db::init never reads either Meta copy
and never calls Meta::validate, so no copy is validated, none is
selected by transaction id, and the DatabaseInvalid failure the claim
requires never happens. -/
theorem open_ignores_invalid_metas :
    Meta.validate invalidFile.meta0 = .error .DatabaseInvalid ∧
    Meta.validate invalidFile.meta1 = .error .DatabaseInvalid ∧
    Db.openDb true invalidFile Settings.default = .ok () ∧
    Db.init invalidFile Settings.default = .ok () :=
  ⟨rfl, rfl, rfl, rfl⟩

/-- C8: opening a path with no database file fails with DatabaseNotFound
when auto_create is false, and creates a fresh database file (both Meta
slots holding Meta::default, four pages long) when auto_create is true. -/
theorem open_missing_file (settings : Settings) (file : DbFile) :
    (settings.auto_create = false →
      Db.openDb false file settings = .error .DatabaseNotFound) ∧
    (settings.auto_create = true →
      Db.openDb false file settings = .ok () ∧
      Db.create settings =
        .ok { meta0 := Meta.default, meta1 := Meta.default, len := OS_PAGE_SIZE * 4 }) := by
  refine ⟨fun h => ?_, fun h => ⟨?_, rfl⟩⟩
  · simp [Db.openDb, h]
  · simp [Db.openDb, h, Db.create, Except.map]

/-- C8 witness: both settings of auto_create at a concrete file state. -/
theorem open_missing_file_witness :
    Db.openDb false invalidFile
      { auto_create := false, read_only := false, initial_mmap_size := 0 } =
      .error .DatabaseNotFound ∧
    Db.openDb false invalidFile Settings.default = .ok () :=
  ⟨(open_missing_file _ _).1 rfl, ((open_missing_file _ _).2 rfl).1⟩

/-! ## Claim theorems: page store bounds -/

/-- C4 evaluation: with a mapped region of exactly one page, page id 1
satisfies id * page_size ≥ mapped_length, so the claim requires the read
to be rejected; but check_bounds passes (the assertion only requires
mapped_length ≥ page_size * id) and page_ptr returns the offset one full
page past the mapped region. -/
theorem page_ptr_off_by_one_page :
    PageArray.check_bounds OS_PAGE_SIZE 1 = true ∧
    PageArray.page_ptr OS_PAGE_SIZE 1 = some (OS_PAGE_SIZE * 1) ∧
    1 * OS_PAGE_SIZE ≥ OS_PAGE_SIZE ∧
    OS_PAGE_SIZE * 1 + OS_PAGE_SIZE > OS_PAGE_SIZE := by decide

/-! ## Claim theorems: jump table bounds -/

/-- C9: for every index strictly below the stored length, JumpTable::get
and JumpTable::set panic with "Index out of bound"; a read or write is
performed only when the index is strictly greater than the length, so
every in-bounds access aborts and every performed access is past the
declared capacity. -/
theorem jump_table_inverted_bounds (length index : Nat) :
    (index < length →
      JumpTable.get length index = none ∧ JumpTable.set length index = none) ∧
    (JumpTable.get length index ≠ none → length < index) ∧
    (JumpTable.set length index ≠ none → length < index) := by
  refine ⟨fun h => ?_, fun h => ?_, fun h => ?_⟩
  · constructor <;> · simp only [JumpTable.get, JumpTable.set]
                      rw [if_neg (by omega)]
  · by_cases hc : length < index
    · exact hc
    · exact absurd (by simp only [JumpTable.get, if_neg hc]) h
  · by_cases hc : length < index
    · exact hc
    · exact absurd (by simp only [JumpTable.set, if_neg hc]) h

/-- C9 witness: index 3 of a table of length 5 is in bounds yet both
accessors panic. -/
theorem jump_table_inverted_bounds_witness :
    3 < 5 ∧ JumpTable.get 5 3 = none ∧ JumpTable.set 5 3 = none :=
  ⟨by decide, ((jump_table_inverted_bounds 5 3).1 (by decide)).1,
    ((jump_table_inverted_bounds 5 3).1 (by decide)).2⟩

end Rdb
